import Mathlib

/-!
Shallow embedding of
`x-pack/legacy/plugins/ml/server/models/job_service/new_job_caps/field_service.ts`.

The TypeScript module cross-references a field-capability report with a
catalog of aggregation definitions, optionally constrained by rollup job
capabilities.  The embedding models:

* JS objects keyed by strings as association lists (`List (String × _)`),
  preserving key-insertion order;
* the mutable bidirectional linking (`field.aggs.push(agg)` /
  `agg.fields.push(field)`) by identifier lists, as every observable property
  of a link is its pair of identifiers: a field holds the DSL names of its
  linked aggregations, an aggregation holds the ids of its linked fields;
* the two external `await` calls (`fieldCaps`, `getRollupJobs`) as explicit
  parameters holding the values those calls would return (`Option` for the
  nullable rollup result);
* `String.prototype.localeCompare` as an arbitrary `Int`-valued comparator
  parameter `lc`, and `Array.prototype.sort(cmp)` as insertion sort with
  respect to `cmp(a, b) <= 0` (ECMAScript guarantees only sortedness with
  respect to a consistent comparator, which any correct sort realises);
* `cloneDeep(aggregations)` is the identity on the pure catalog value, so the
  catalog is passed as a plain parameter.
-/

namespace FieldService

/-- `METRIC_AGG_TYPE` from `common/types/fields` (the metric category tag).
Only equality with this tag is ever observed, so it is modelled as a fixed
string. -/
def METRIC_AGG_TYPE : String := "metrics"

/-- `ES_AGGREGATION.CARDINALITY` from `common/constants/aggregation_types`. -/
def ES_AGG_CARDINALITY : String := "cardinality"

/-- `ES_AGGREGATION.COUNT` from `common/constants/aggregation_types`. -/
def ES_AGG_COUNT : String := "count"

/-- `supportedTypes` (field_service.ts lines 21-33): the ES field types ML can
use, as the string constants of `ES_FIELD_TYPES`. -/
def supportedTypes : List String :=
  ["date", "keyword", "text", "double", "integer", "float", "long",
   "byte", "half_float", "scaled_float", "short"]

/-- The `Field` entity built by `createFields`: id, name, declared type,
aggregatability flag, and the list of linked aggregations (held by DSL name;
`field.aggs.push(agg)` appends the aggregation's identifier). -/
structure Field where
  id : String
  name : String
  type : String
  aggregatable : Bool
  aggs : List String
deriving DecidableEq

/-- An entry of the aggregation catalog: DSL name, category tag, and the list
of linked fields (held by field id; `agg.fields.push(field)` appends the
field's identifier). -/
structure Aggregation where
  dslName : String
  type : String
  fields : List String
deriving DecidableEq

/-- The result structure `NewJobCaps` returned by `getData`. -/
structure NewJobCaps where
  aggs : List Aggregation
  fields : List Field
deriving DecidableEq

/-- One `{agg: string}` entry of a rollup job's field map. -/
structure RollupAggEntry where
  agg : String
deriving DecidableEq

/-- A rollup job definition as consumed here: its `fields` object, a mapping
from field name to the aggregation entries available for it. -/
structure RollupJob where
  fields : List (String × List RollupAggEntry)
deriving DecidableEq

/-- The merged `RollupFields` map (a JS object keyed by field name). -/
abbrev RollupFields := List (String × List RollupAggEntry)

/-- Property read `rollupFields[fieldName]`: `some` when the key is present,
`none` for JS `undefined`. -/
def lookupRF (rf : RollupFields) (k : String) : Option (List RollupAggEntry) :=
  (rf.find? (fun e => e.1 == k)).map (fun e => e.2)

/-- The duplicate test in `combineAllRollupFields` (line 206):
`rollupFields[fieldName].find(f => f.agg === agg.agg) === null`.
`Array.prototype.find` returns the matching element or `undefined` — never
`null` — and both `element === null` and `undefined === null` are `false`
under JS strict equality, so the test is `false` in either case. -/
def findAggEqNull (existing : List RollupAggEntry) (agg : RollupAggEntry) : Bool :=
  match existing.find? (fun f => f.agg == agg.agg) with
  | some _ => false
  | none => false

/-- Append `agg` to the entry of `rollupFields` keyed `k`
(`rollupFields[fieldName].push(agg)`, line 207). -/
def pushRF (rf : RollupFields) (k : String) (agg : RollupAggEntry) : RollupFields :=
  rf.map (fun e => if e.1 == k then (e.1, e.2 ++ [agg]) else e)

/-- Body of the inner `Object.keys(conf.fields).forEach` of
`combineAllRollupFields` (lines 200-211): a fresh field name is inserted
(object key insertion appends at the end); for an existing name each
aggregation entry is pushed only when `findAggEqNull` holds. -/
def insertRollupField (rf : RollupFields) (entry : String × List RollupAggEntry) :
    RollupFields :=
  match lookupRF rf entry.1 with
  | none => rf ++ [entry]
  | some existing =>
      entry.2.foldl (fun acc agg =>
        if findAggEqNull existing agg then pushRF acc entry.1 agg else acc) rf

/-- `combineAllRollupFields` (lines 197-214): fold every job's field map into
one merged map. -/
def combineAllRollupFields (rollupConfigs : List RollupJob) : RollupFields :=
  rollupConfigs.foldl (fun rf conf => conf.fields.foldl insertRollupField rf) []

/-- The truthiness test inside `mix` (line 185):
`rollupFields[field.id] && rollupFields[field.id].find(f => f.agg === agg.dslName)`
— the merged map has the field name and lists the aggregation's DSL name. -/
def rollupPermits (rf : RollupFields) (fieldId : String) (aggDslName : String) : Bool :=
  match lookupRF rf fieldId with
  | some entries => (entries.find? (fun f => f.agg == aggDslName)).isSome
  | none => false

/-- The gate of `mix` from `mixFactory` (lines 179-195): `isRollup` is
`Object.keys(rollupFields).length > 0`, and linking proceeds when
`isRollup === false` or the merged map permits the pairing. -/
def mixGate (rf : RollupFields) (fieldId : String) (aggDslName : String) : Bool :=
  let isRollup : Bool := decide (0 < rf.length)
  !isRollup || rollupPermits rf fieldId aggDslName

/-- `getTextAndKeywordFields` (lines 216-218). -/
def getTextAndKeywordFields (fields : List Field) : List Field :=
  fields.filter (fun f => f.type == "keyword" || f.type == "text")

/-- `getNumericalFields` (lines 220-227). -/
def getNumericalFields (fields : List Field) : List Field :=
  fields.filter (fun f => f.type == "double" || f.type == "float" || f.type == "long")

/-- The field objects a given catalog aggregation is mixed with, in mixing
order (lines 139-158): metric cardinality mixes the text/keyword fields and
then the numerical fields, metric count mixes nothing, any other metric
aggregation mixes the numerical fields, and a non-metric aggregation is
skipped. -/
def linkTargets (fields : List Field) (a : Aggregation) : List Field :=
  if a.type == METRIC_AGG_TYPE then
    if a.dslName == ES_AGG_CARDINALITY then
      getTextAndKeywordFields fields ++ getNumericalFields fields
    else if a.dslName == ES_AGG_COUNT then []
    else getNumericalFields fields
  else []

/-- Whether a field object occurs in `linkTargets _ a`, as a predicate on the
field itself (a field is text/keyword or numerical by its own `type`, and the
two classes are disjoint, so each field object is mixed at most once per
aggregation). -/
def fieldLinks (f : Field) (a : Aggregation) : Bool :=
  a.type == METRIC_AGG_TYPE &&
    (if a.dslName == ES_AGG_CARDINALITY then
       (f.type == "keyword" || f.type == "text") ||
       (f.type == "double" || f.type == "float" || f.type == "long")
     else if a.dslName == ES_AGG_COUNT then false
     else f.type == "double" || f.type == "float" || f.type == "long")

/-- The effect on one field object of mixing it (or not) with aggregation
`a`:  `mix(f, a)` appends `a.dslName` to `f.aggs` exactly when `f` is among
`a`'s targets and the gate admits the pairing. -/
def updateField (rf : RollupFields) (a : Aggregation) (f : Field) : Field :=
  if fieldLinks f a && mixGate rf f.id a.dslName then
    { f with aggs := f.aggs ++ [a.dslName] }
  else f

/-- The ids `agg.fields.push(field)` appends while mixing aggregation `a`
over the field list, in mixing order. -/
def targetIds (rf : RollupFields) (fields : List Field) (a : Aggregation) :
    List String :=
  ((linkTargets fields a).filter (fun f => mixGate rf f.id a.dslName)).map
    (fun f => f.id)

/-- One iteration of the `aggs.forEach` loop of `combineFieldsAndAggs`
(lines 139-159) on the state (current field objects, aggregations processed
so far): every target field passing the `mix` gate receives the
aggregation's DSL name appended to its `aggs`, and the aggregation receives
the gated targets' ids appended to its `fields` in mixing order. -/
def applyAgg (rf : RollupFields) (st : List Field × List Aggregation)
    (a : Aggregation) : List Field × List Aggregation :=
  ( st.1.map (updateField rf a),
    st.2 ++ [{ a with fields := a.fields ++ targetIds rf st.1 a }] )

/-- `filterFields` (lines 168-170): keep fields whose `aggs` list is
non-empty (`f.aggs && f.aggs.length`; `aggs` is always a list here, so
truthiness is non-zero length). -/
def filterFields (fields : List Field) : List Field :=
  fields.filter (fun f => f.aggs.length != 0)

/-- `filterAggs` (lines 172-175): keep aggregations whose `fields` list is
non-empty. -/
def filterAggs (aggs : List Aggregation) : List Aggregation :=
  aggs.filter (fun a => a.fields.length != 0)

/-- `combineFieldsAndAggs` (lines 129-165): run the `forEach` linking pass
over the catalog, then mutually filter. -/
def combineFieldsAndAggs (fields : List Field) (aggs : List Aggregation)
    (rollupFields : RollupFields) : NewJobCaps :=
  let st := aggs.foldl (applyAgg rollupFields) (fields, [])
  { aggs := filterAggs st.2, fields := filterFields st.1 }

/-- One type-variant capability descriptor of the `_field_caps` response
(carries `type` and `aggregatable`). -/
structure FieldCapEntry where
  type : String
  aggregatable : Bool
deriving DecidableEq

/-- The `fields` object of a `_field_caps` response: per field name, the
type-variant descriptors in key order (`Object.keys(fc)[0]` is the head). -/
abbrev FieldCapsFields := List (String × List FieldCapEntry)

/-- The body of the `Object.keys(fieldCaps.fields).forEach` of `createFields`
(lines 69-85): take the first type variant; keep the field only when its type
is supported; the built `Field` copies the variant's type and aggregatable
flag and starts with an empty `aggs` list. -/
def fieldFromCaps (k : String) (fc : List FieldCapEntry) : Option Field :=
  match fc.head? with
  | none => none
  | some field =>
      if supportedTypes.contains field.type then
        some { id := k, name := k, type := field.type,
               aggregatable := field.aggregatable, aggs := [] }
      else none

/-- The sort relation of `createFields` (line 87):
`(a, b) => a.id.localeCompare(b.id)` sorts ascending, i.e. the result is
pairwise `a.id.localeCompare(b.id) <= 0` for a consistent comparator. -/
def fieldCompare (lc : String → String → Int) (a b : Field) : Prop :=
  lc a.id b.id ≤ 0

instance (lc : String → String → Int) : DecidableRel (fieldCompare lc) :=
  fun a b => inferInstanceAs (Decidable (lc a.id b.id ≤ 0))

/-- `createFields` (lines 65-88) given the value of the awaited
`loadFieldCaps()` call (`none` models a falsy response or a response without
a `fields` object): build the field list and sort it by `localeCompare` on
ids. -/
def createFields (lc : String → String → Int) (fieldCaps : Option FieldCapsFields) :
    List Field :=
  let fields : List Field :=
    match fieldCaps with
    | none => []
    | some fcFields => fcFields.filterMap (fun e => fieldFromCaps e.1 e.2)
  List.insertionSort (fieldCompare lc) fields

/-- `FieldsService.getData` (lines 96-124) given the values of its two
external calls: `rollupJobs` is the `getRollupJobs()` result (consulted only
when `isRollup`), `fieldCaps` the `fieldCaps` response, `aggregations` the
(deep-copied) catalog.  In rollup mode with a `null` job list it
short-circuits to the empty result without consulting the capability report;
otherwise it combines the created fields with the catalog under the merged
rollup map (which stays `{}` when not in rollup mode).  The index-pattern
replacement (line 116) only affects which capability report the external
call would return, which is already abstracted by the `fieldCaps`
parameter. -/
def getData (lc : String → String → Int) (isRollup : Bool)
    (rollupJobs : Option (List RollupJob)) (fieldCaps : Option FieldCapsFields)
    (aggregations : List Aggregation) : NewJobCaps :=
  if isRollup then
    match rollupJobs with
    | none => { aggs := [], fields := [] }
    | some rollupConfigs =>
        combineFieldsAndAggs (createFields lc fieldCaps) aggregations
          (combineAllRollupFields rollupConfigs)
  else
    combineFieldsAndAggs (createFields lc fieldCaps) aggregations []

/-- Lexicographic code-point comparison on character lists (`≤` as a
boolean), used to build a concrete comparator. -/
def charListLe : List Char → List Char → Bool
  | [], _ => true
  | _ :: _, [] => false
  | a :: as, b :: bs =>
      if a.toNat < b.toNat then true
      else if b.toNat < a.toNat then false
      else charListLe as bs

/-- A field object as it stands after the whole `aggs.forEach` pass: its
`aggs` list has received, in catalog order, the DSL name of every catalog
aggregation it is mixed with under the gate. -/
def finalField (rf : RollupFields) (aggs : List Aggregation) (f : Field) : Field :=
  { f with aggs := f.aggs ++
      ((aggs.filter (fun a => fieldLinks f a && mixGate rf f.id a.dslName)).map
        (fun a => a.dslName)) }

/-- A catalog aggregation as it stands after the whole `aggs.forEach` pass:
its `fields` list has received the gated target ids in mixing order. -/
def finalAgg (rf : RollupFields) (fields : List Field) (a : Aggregation) : Aggregation :=
  { a with fields := a.fields ++ targetIds rf fields a }

/-- A concrete consistent comparator standing in for one locale's
`localeCompare` in concrete instances: negative when `a` precedes or equals
`b` in code-point order, positive otherwise. -/
def lcLe (a b : String) : Int :=
  if charListLe a.data b.data then -1 else 1

/-- Two capability-report entries of the same shape: the same field name and
the same type variants in the same order, with possibly different
aggregatable flags. -/
def SameShapeEntry (e1 e2 : String × List FieldCapEntry) : Prop :=
  e1.1 = e2.1 ∧
    List.Forall₂ (fun v1 v2 : FieldCapEntry => v1.type = v2.type) e1.2 e2.2

/-- Two `Field` entities that agree on everything except possibly the copied
aggregatable flag. -/
def SameButAggregatable (f g : Field) : Prop :=
  f.id = g.id ∧ f.name = g.name ∧ f.type = g.type ∧ f.aggs = g.aggs

/-! ### Concrete scenario data -/

/-- The catalog of the spec's worked scenario: `avg` (metric, handled by the
numeric-only default branch), `cardinality` (metric), `count` (metric), in
that order, all initially unlinked. -/
def scenarioCatalog : List Aggregation :=
  [⟨"avg", METRIC_AGG_TYPE, []⟩, ⟨"cardinality", METRIC_AGG_TYPE, []⟩,
   ⟨"count", METRIC_AGG_TYPE, []⟩]

/-- The capability report of the spec's worked scenario:
`{ age: {type: long, aggregatable: true}, name: {type: keyword, aggregatable: true} }`. -/
def scenarioReport : FieldCapsFields :=
  [("age", [⟨"long", true⟩]), ("name", [⟨"keyword", true⟩])]

/-! ### Structural lemmas about the linking pass -/

lemma updateField_id (rf : RollupFields) (a : Aggregation) (f : Field) :
    (updateField rf a f).id = f.id := by
  unfold updateField; split <;> rfl

lemma updateField_type (rf : RollupFields) (a : Aggregation) (f : Field) :
    (updateField rf a f).type = f.type := by
  unfold updateField; split <;> rfl

lemma fieldLinks_updateField (rf : RollupFields) (a' a : Aggregation) (f : Field) :
    fieldLinks (updateField rf a' f) a = fieldLinks f a := by
  unfold fieldLinks; rw [updateField_type]

lemma finalField_updateField (rf : RollupFields) (a : Aggregation)
    (aggs : List Aggregation) (f : Field) :
    finalField rf aggs (updateField rf a f) = finalField rf (a :: aggs) f := by
  by_cases h : (fieldLinks f a && mixGate rf f.id a.dslName) = true
  · have hfl : ∀ a' : Aggregation,
        fieldLinks { f with aggs := f.aggs ++ [a.dslName] } a' = fieldLinks f a' :=
      fun a' => rfl
    simp only [finalField, updateField, if_pos h, List.filter_cons, h, if_true,
      List.map_cons, List.append_assoc, List.singleton_append, hfl]
  · simp only [finalField, updateField, if_neg h, List.filter_cons, h,
      Bool.false_eq_true, if_false]

lemma map_comm_filter (u : Field → Field) (p : Field → Bool)
    (hp : ∀ f, p (u f) = p f) :
    ∀ l : List Field, (l.map u).filter p = (l.filter p).map u := by
  intro l
  induction l with
  | nil => rfl
  | cons f t ih =>
      by_cases h : p f = true
      · simp [List.filter_cons, hp, h, ih]
      · simp [List.filter_cons, hp, h, ih]

lemma linkTargets_map (u : Field → Field) (htype : ∀ f, (u f).type = f.type)
    (fs : List Field) (a : Aggregation) :
    linkTargets (fs.map u) a = (linkTargets fs a).map u := by
  unfold linkTargets getTextAndKeywordFields getNumericalFields
  split
  · split
    · rw [map_comm_filter u _ (fun f => by rw [htype]),
        map_comm_filter u _ (fun f => by rw [htype]), List.map_append]
    · split
      · rfl
      · exact map_comm_filter u _ (fun f => by rw [htype]) fs
  · rfl

lemma targetIds_map (rf : RollupFields) (u : Field → Field)
    (hid : ∀ f, (u f).id = f.id) (htype : ∀ f, (u f).type = f.type)
    (fs : List Field) (a : Aggregation) :
    targetIds rf (fs.map u) a = targetIds rf fs a := by
  unfold targetIds
  rw [linkTargets_map u htype,
    map_comm_filter u _ (fun f => by rw [hid]), List.map_map]
  exact List.map_congr_left (fun f _ => hid f)

lemma foldl_applyAgg_fst (rf : RollupFields) :
    ∀ (aggs : List Aggregation) (fields : List Field) (acc : List Aggregation),
      (aggs.foldl (applyAgg rf) (fields, acc)).1 = fields.map (finalField rf aggs)
  | [], fields, acc => by
      have hnil : ∀ f : Field, finalField rf [] f = f := fun f => by
        simp [finalField]
      simp only [List.foldl_nil]
      exact (List.map_id'' hnil fields).symm
  | a :: rest, fields, acc => by
      simp only [List.foldl_cons, applyAgg]
      rw [foldl_applyAgg_fst rf rest, List.map_map]
      exact List.map_congr_left (fun f _ => finalField_updateField rf a rest f)

lemma foldl_applyAgg_snd (rf : RollupFields) :
    ∀ (aggs : List Aggregation) (fields : List Field) (acc : List Aggregation),
      (aggs.foldl (applyAgg rf) (fields, acc)).2 =
        acc ++ aggs.map (finalAgg rf fields)
  | [], fields, acc => by simp
  | a :: rest, fields, acc => by
      simp only [List.foldl_cons, applyAgg]
      rw [foldl_applyAgg_snd rf rest]
      have hmap : rest.map (finalAgg rf (fields.map (updateField rf a))) =
          rest.map (finalAgg rf fields) :=
        List.map_congr_left (fun a' _ => by
          unfold finalAgg
          rw [targetIds_map rf (updateField rf a) (updateField_id rf a)
            (updateField_type rf a)])
      rw [hmap]
      simp [finalAgg]

/-- Closed form of `combineFieldsAndAggs`: each field ends with the gated
catalog aggregations' DSL names appended in catalog order, each catalog
aggregation ends with its gated targets' ids appended in mixing order, and
both lists are then mutually filtered. -/
lemma combineFieldsAndAggs_eq (fields : List Field) (aggs : List Aggregation)
    (rf : RollupFields) :
    combineFieldsAndAggs fields aggs rf =
      { aggs := filterAggs (aggs.map (finalAgg rf fields)),
        fields := filterFields (fields.map (finalField rf aggs)) } := by
  simp only [combineFieldsAndAggs]
  rw [foldl_applyAgg_fst, foldl_applyAgg_snd, List.nil_append]

/-! ### Lemmas about field creation and the gate -/

lemma fieldFromCaps_eq_some (k : String) (fc : List FieldCapEntry) (f : Field) :
    fieldFromCaps k fc = some f ↔
      ∃ v, fc.head? = some v ∧ supportedTypes.contains v.type = true ∧
        f = ⟨k, k, v.type, v.aggregatable, []⟩ := by
  unfold fieldFromCaps
  cases h : fc.head? with
  | none => simp
  | some v =>
      by_cases hs : supportedTypes.contains v.type = true
      · simp only [hs, if_true, Option.some.injEq]
        constructor
        · intro hf
          exact ⟨v, rfl, hs, hf.symm⟩
        · rintro ⟨v', hv', hs', hf⟩
          cases hv'
          exact hf.symm
      · simp only [hs, if_false, Bool.false_eq_true]
        constructor
        · intro hf
          cases hf
        · rintro ⟨v', hv', hs', hf⟩
          cases hv'
          exact absurd hs' hs

lemma mem_createFields (lc : String → String → Int) (fc : FieldCapsFields)
    (f : Field) :
    f ∈ createFields lc (some fc) ↔ ∃ e ∈ fc, fieldFromCaps e.1 e.2 = some f := by
  unfold createFields
  rw [List.mem_insertionSort, List.mem_filterMap]

lemma createFields_aggs (lc : String → String → Int)
    (fcOpt : Option FieldCapsFields) :
    ∀ f ∈ createFields lc fcOpt, f.aggs = [] := by
  intro f hf
  cases fcOpt with
  | none => simp [createFields, List.insertionSort] at hf
  | some fc =>
      rcases (mem_createFields lc fc f).1 hf with ⟨e, _, he⟩
      rcases (fieldFromCaps_eq_some e.1 e.2 f).1 he with ⟨v, _, _, rfl⟩
      rfl

lemma mixGate_nil (fid n : String) : mixGate [] fid n = true := rfl

lemma mixGate_ne_nil {rf : RollupFields} (h : rf ≠ []) (fid n : String) :
    mixGate rf fid n = rollupPermits rf fid n := by
  unfold mixGate
  cases rf with
  | nil => exact absurd rfl h
  | cons e t => simp

lemma mem_filterFields {fields : List Field} {f : Field}
    (h : f ∈ filterFields fields) : f.aggs ≠ [] := by
  have hp := (List.mem_filter.1 h).2
  intro hnil
  rw [hnil] at hp
  simp at hp

lemma mem_filterAggs {aggs : List Aggregation} {a : Aggregation}
    (h : a ∈ filterAggs aggs) : a.fields ≠ [] := by
  have hp := (List.mem_filter.1 h).2
  intro hnil
  rw [hnil] at hp
  simp at hp

/-- `getData` either short-circuits to the empty result (rollup mode with a
`null` job list) or is `combineFieldsAndAggs` of the created fields under
some merged rollup map. -/
lemma getData_cases (lc : String → String → Int) (isRollup : Bool)
    (rollupJobs : Option (List RollupJob)) (fieldCaps : Option FieldCapsFields)
    (aggregations : List Aggregation) :
    getData lc isRollup rollupJobs fieldCaps aggregations =
        { aggs := [], fields := [] } ∨
      ∃ rf, getData lc isRollup rollupJobs fieldCaps aggregations =
        combineFieldsAndAggs (createFields lc fieldCaps) aggregations rf := by
  unfold getData
  cases isRollup with
  | false => exact Or.inr ⟨[], by simp⟩
  | true =>
      cases rollupJobs with
      | none => exact Or.inl (by simp)
      | some configs => exact Or.inr ⟨combineAllRollupFields configs, by simp⟩

lemma getData_not_rollup (lc : String → String → Int)
    (rollupJobs : Option (List RollupJob)) (fieldCaps : Option FieldCapsFields)
    (aggregations : List Aggregation) :
    getData lc false rollupJobs fieldCaps aggregations =
      combineFieldsAndAggs (createFields lc fieldCaps) aggregations [] := by
  simp [getData]

lemma getData_rollup_some (lc : String → String → Int)
    (configs : List RollupJob) (fieldCaps : Option FieldCapsFields)
    (aggregations : List Aggregation) :
    getData lc true (some configs) fieldCaps aggregations =
      combineFieldsAndAggs (createFields lc fieldCaps) aggregations
        (combineAllRollupFields configs) := by
  simp [getData]

lemma mem_filterFields_map {u : Field → Field} {l : List Field} {f : Field}
    (h : f ∈ filterFields (l.map u)) : ∃ f0 ∈ l, f = u f0 := by
  rcases List.mem_map.1 (List.mem_filter.1 h).1 with ⟨f0, h0, rfl⟩
  exact ⟨f0, h0, rfl⟩

lemma mem_filterAggs_map {u : Aggregation → Aggregation} {l : List Aggregation}
    {a : Aggregation} (h : a ∈ filterAggs (l.map u)) : ∃ a0 ∈ l, a = u a0 := by
  rcases List.mem_map.1 (List.mem_filter.1 h).1 with ⟨a0, h0, rfl⟩
  exact ⟨a0, h0, rfl⟩

lemma fieldLinks_count {f : Field} {a : Aggregation}
    (hdsl : a.dslName = ES_AGG_COUNT) : fieldLinks f a = false := by
  unfold fieldLinks
  rw [hdsl]
  rw [show (ES_AGG_COUNT == ES_AGG_CARDINALITY) = false from by decide,
    show (ES_AGG_COUNT == ES_AGG_COUNT) = true from rfl]
  simp

lemma linkTargets_count {fields : List Field} {a : Aggregation}
    (hdsl : a.dslName = ES_AGG_COUNT) : linkTargets fields a = [] := by
  unfold linkTargets
  rw [hdsl]
  rw [show (ES_AGG_COUNT == ES_AGG_CARDINALITY) = false from by decide,
    show (ES_AGG_COUNT == ES_AGG_COUNT) = true from rfl]
  simp

lemma fieldLinks_text_keyword {f : Field} {a : Aggregation}
    (hf : f.type = "keyword" ∨ f.type = "text") :
    fieldLinks f a = (a.type == METRIC_AGG_TYPE && a.dslName == ES_AGG_CARDINALITY) := by
  unfold fieldLinks
  rcases hf with h | h <;> rw [h] <;>
    by_cases hc : (a.dslName == ES_AGG_CARDINALITY) = true <;>
      by_cases hn : (a.dslName == ES_AGG_COUNT) = true <;>
        simp [hc, hn]

lemma linkTargets_other_metric {fields : List Field} {a : Aggregation}
    (hm : a.type = METRIC_AGG_TYPE) (hcard : a.dslName ≠ ES_AGG_CARDINALITY)
    (hcount : a.dslName ≠ ES_AGG_COUNT) :
    linkTargets fields a = getNumericalFields fields := by
  unfold linkTargets
  rw [if_pos (by rw [hm]; rfl), if_neg, if_neg]
  · simp [hcount]
  · simp [hcard]

lemma charListLe_total : ∀ as bs : List Char,
    charListLe as bs = true ∨ charListLe bs as = true
  | [], _ => Or.inl rfl
  | _ :: _, [] => Or.inr rfl
  | a :: as, b :: bs => by
      unfold charListLe
      by_cases h1 : a.toNat < b.toNat
      · left; simp [h1]
      · by_cases h2 : b.toNat < a.toNat
        · right; simp [h2]
        · rcases charListLe_total as bs with h | h
          · left; simp [h1, h2, h]
          · right; simp [h1, h2, h]

lemma charListLe_trans : ∀ as bs cs : List Char,
    charListLe as bs = true → charListLe bs cs = true → charListLe as cs = true
  | [], _, _ => fun _ _ => rfl
  | a :: as, [], _ => fun h1 _ => by simp [charListLe] at h1
  | a :: as, b :: bs, [] => fun _ h2 => by simp [charListLe] at h2
  | a :: as, b :: bs, c :: cs => by
      unfold charListLe
      intro h1 h2
      by_cases hab : a.toNat < b.toNat
      · by_cases hbc : b.toNat < c.toNat
        · simp [show a.toNat < c.toNat from Nat.lt_trans hab hbc]
        · by_cases hcb : c.toNat < b.toNat
          · simp [hbc, hcb] at h2
          · simp [show a.toNat < c.toNat from by omega]
      · by_cases hba : b.toNat < a.toNat
        · simp [hab, hba] at h1
        · simp only [if_neg hab, if_neg hba] at h1
          by_cases hbc : b.toNat < c.toNat
          · simp [show a.toNat < c.toNat from by omega]
          · by_cases hcb : c.toNat < b.toNat
            · simp [hbc, hcb] at h2
            · simp only [if_neg hbc, if_neg hcb] at h2
              have hac : ¬a.toNat < c.toNat := by omega
              have hca : ¬c.toNat < a.toNat := by omega
              simp only [if_neg hac, if_neg hca]
              exact charListLe_trans as bs cs h1 h2

lemma lcLe_le_zero (a b : String) :
    lcLe a b ≤ 0 ↔ charListLe a.data b.data = true := by
  unfold lcLe
  by_cases h : charListLe a.data b.data = true
  · simp [h]
  · rw [if_neg h]
    constructor
    · intro hle
      exact absurd hle (by decide)
    · intro ht
      exact absurd ht h

lemma lcLe_trans (a b c : String) :
    lcLe a b ≤ 0 → lcLe b c ≤ 0 → lcLe a c ≤ 0 := by
  rw [lcLe_le_zero, lcLe_le_zero, lcLe_le_zero]
  exact charListLe_trans a.data b.data c.data

lemma lcLe_total (a b : String) : lcLe a b ≤ 0 ∨ lcLe b a ≤ 0 := by
  rw [lcLe_le_zero, lcLe_le_zero]
  exact charListLe_total a.data b.data

/-- `createFields` returns a list sorted by the comparator, for every
transitive and total comparator (ECMAScript only specifies the sort result
for consistent comparators). -/
lemma createFields_sorted (lc : String → String → Int)
    (fieldCaps : Option FieldCapsFields)
    (htrans : ∀ a b c : String, lc a b ≤ 0 → lc b c ≤ 0 → lc a c ≤ 0)
    (htotal : ∀ a b : String, lc a b ≤ 0 ∨ lc b a ≤ 0) :
    List.Sorted (fieldCompare lc) (createFields lc fieldCaps) := by
  haveI : IsTotal Field (fieldCompare lc) := ⟨fun a b => htotal a.id b.id⟩
  haveI : IsTrans Field (fieldCompare lc) :=
    ⟨fun a b c hab hbc => htrans a.id b.id c.id hab hbc⟩
  unfold createFields
  exact List.sorted_insertionSort (fieldCompare lc) _

/-! ### Lemmas for the aggregatable-flag noninterference claim -/

lemma fieldFromCaps_nil (k : String) : fieldFromCaps k [] = none := rfl

lemma fieldFromCaps_cons (k : String) (v : FieldCapEntry) (t : List FieldCapEntry) :
    fieldFromCaps k (v :: t) =
      (if supportedTypes.contains v.type then
        some ⟨k, k, v.type, v.aggregatable, []⟩ else none) := rfl

lemma forall₂_map_of {α : Type} {R : α → α → Prop} (u v : α → α)
    (huv : ∀ a b, R a b → R (u a) (v b)) :
    ∀ {l1 l2 : List α}, List.Forall₂ R l1 l2 →
      List.Forall₂ R (l1.map u) (l2.map v) := by
  intro l1 l2 h
  induction h with
  | nil => exact List.Forall₂.nil
  | cons hab _ ih => exact List.Forall₂.cons (huv _ _ hab) ih

lemma forall₂_filter_of {α : Type} {R : α → α → Prop} (p q : α → Bool)
    (hpq : ∀ a b, R a b → p a = q b) :
    ∀ {l1 l2 : List α}, List.Forall₂ R l1 l2 →
      List.Forall₂ R (l1.filter p) (l2.filter q) := by
  intro l1 l2 h
  induction h with
  | nil => exact List.Forall₂.nil
  | @cons a b t1 t2 hab _ ih =>
      rw [List.filter_cons, List.filter_cons, ← hpq a b hab]
      by_cases hp : p a = true
      · rw [if_pos hp, if_pos hp]
        exact List.Forall₂.cons hab ih
      · rw [if_neg hp, if_neg hp]
        exact ih

lemma forall₂_append_of {α : Type} {R : α → α → Prop} :
    ∀ {l1 l2 l3 l4 : List α}, List.Forall₂ R l1 l2 → List.Forall₂ R l3 l4 →
      List.Forall₂ R (l1 ++ l3) (l2 ++ l4) := by
  intro l1 l2 l3 l4 h h'
  induction h with
  | nil => exact h'
  | cons hab _ ih => exact List.Forall₂.cons hab ih

lemma forall₂_filterMap_create :
    ∀ {r1 r2 : FieldCapsFields}, List.Forall₂ SameShapeEntry r1 r2 →
      List.Forall₂ SameButAggregatable
        (r1.filterMap (fun e => fieldFromCaps e.1 e.2))
        (r2.filterMap (fun e => fieldFromCaps e.1 e.2)) := by
  intro r1 r2 h
  induction h with
  | nil => exact List.Forall₂.nil
  | @cons a b t1 t2 he _ ih =>
      obtain ⟨k1, l1⟩ := a
      obtain ⟨k2, l2⟩ := b
      obtain ⟨hk, hv⟩ := he
      cases hk
      cases hv with
      | nil =>
          rw [List.filterMap_cons_none (by rfl), List.filterMap_cons_none (by rfl)]
          exact ih
      | @cons v1 v2 t1' t2' hv12 _ =>
          by_cases hs : supportedTypes.contains v1.type = true
          · have hs2 : supportedTypes.contains v2.type = true := by rwa [hv12] at hs
            simp only [List.filterMap_cons, fieldFromCaps_cons, if_pos hs,
              if_pos hs2]
            exact List.Forall₂.cons ⟨rfl, rfl, hv12, rfl⟩ ih
          · have hs2 : ¬supportedTypes.contains v2.type = true := by rwa [hv12] at hs
            simp only [List.filterMap_cons, fieldFromCaps_cons, if_neg hs,
              if_neg hs2]
            exact ih

lemma forall₂_orderedInsert (lc : String → String → Int) {a b : Field}
    (hab : SameButAggregatable a b) :
    ∀ {l1 l2 : List Field}, List.Forall₂ SameButAggregatable l1 l2 →
      List.Forall₂ SameButAggregatable
        (List.orderedInsert (fieldCompare lc) a l1)
        (List.orderedInsert (fieldCompare lc) b l2) := by
  intro l1 l2 h
  induction h with
  | nil => exact List.Forall₂.cons hab List.Forall₂.nil
  | @cons x y t1 t2 hxy htail ih =>
      simp only [List.orderedInsert]
      by_cases hc : fieldCompare lc a x
      · rw [if_pos hc, if_pos (show fieldCompare lc b y by
          unfold fieldCompare at hc ⊢
          rw [← hab.1, ← hxy.1]
          exact hc)]
        exact List.Forall₂.cons hab (List.Forall₂.cons hxy htail)
      · rw [if_neg hc, if_neg (show ¬fieldCompare lc b y from fun hby => hc (by
          unfold fieldCompare at hby ⊢
          rw [hab.1, hxy.1]
          exact hby))]
        exact List.Forall₂.cons hxy ih

lemma forall₂_insertionSort (lc : String → String → Int) :
    ∀ {l1 l2 : List Field}, List.Forall₂ SameButAggregatable l1 l2 →
      List.Forall₂ SameButAggregatable
        (List.insertionSort (fieldCompare lc) l1)
        (List.insertionSort (fieldCompare lc) l2) := by
  intro l1 l2 h
  induction h with
  | nil => exact List.Forall₂.nil
  | cons hxy _ ih =>
      simp only [List.insertionSort]
      exact forall₂_orderedInsert lc hxy ih

lemma forall₂_createFields (lc : String → String → Int) {r1 r2 : FieldCapsFields}
    (h : List.Forall₂ SameShapeEntry r1 r2) :
    List.Forall₂ SameButAggregatable
      (createFields lc (some r1)) (createFields lc (some r2)) := by
  unfold createFields
  exact forall₂_insertionSort lc (forall₂_filterMap_create h)

lemma fieldLinks_of_type {f g : Field} (h : f.type = g.type) (a : Aggregation) :
    fieldLinks f a = fieldLinks g a := by
  unfold fieldLinks
  rw [h]

lemma finalField_sba {rf : RollupFields} {cat : List Aggregation} {f g : Field}
    (h : SameButAggregatable f g) :
    SameButAggregatable (finalField rf cat f) (finalField rf cat g) := by
  obtain ⟨hid, hname, htype, haggs⟩ := h
  refine ⟨hid, hname, htype, ?_⟩
  show f.aggs ++ ((cat.filter
      (fun a => fieldLinks f a && mixGate rf f.id a.dslName)).map
        (fun a => a.dslName)) =
    g.aggs ++ ((cat.filter
      (fun a => fieldLinks g a && mixGate rf g.id a.dslName)).map
        (fun a => a.dslName))
  have hfun : (fun a => fieldLinks f a && mixGate rf f.id a.dslName) =
      (fun a : Aggregation => fieldLinks g a && mixGate rf g.id a.dslName) :=
    funext fun a => by rw [fieldLinks_of_type htype, hid]
  rw [haggs, hfun]

lemma map_id_eq_of_sba {l1 l2 : List Field}
    (h : List.Forall₂ SameButAggregatable l1 l2) :
    l1.map (fun f => f.id) = l2.map (fun f => f.id) := by
  induction h with
  | nil => rfl
  | cons hxy _ ih => simp only [List.map_cons, hxy.1, ih]

lemma linkTargets_sba {l1 l2 : List Field}
    (h : List.Forall₂ SameButAggregatable l1 l2) (a : Aggregation) :
    List.Forall₂ SameButAggregatable (linkTargets l1 a) (linkTargets l2 a) := by
  have htk := forall₂_filter_of
    (fun f : Field => f.type == "keyword" || f.type == "text")
    (fun f : Field => f.type == "keyword" || f.type == "text")
    (fun f g hfg => by
      show (f.type == "keyword" || f.type == "text") =
        (g.type == "keyword" || g.type == "text")
      rw [hfg.2.2.1]) h
  have hnum := forall₂_filter_of
    (fun f : Field => f.type == "double" || f.type == "float" || f.type == "long")
    (fun f : Field => f.type == "double" || f.type == "float" || f.type == "long")
    (fun f g hfg => by
      show (f.type == "double" || f.type == "float" || f.type == "long") =
        (g.type == "double" || g.type == "float" || g.type == "long")
      rw [hfg.2.2.1]) h
  unfold linkTargets getTextAndKeywordFields getNumericalFields
  split
  · split
    · exact forall₂_append_of htk hnum
    · split
      · exact List.Forall₂.nil
      · exact hnum
  · exact List.Forall₂.nil

lemma targetIds_sba (rf : RollupFields) {l1 l2 : List Field}
    (h : List.Forall₂ SameButAggregatable l1 l2) (a : Aggregation) :
    targetIds rf l1 a = targetIds rf l2 a := by
  unfold targetIds
  exact map_id_eq_of_sba (forall₂_filter_of _ _
    (fun f g hfg => by rw [hfg.1]) (linkTargets_sba h a))

lemma finalAgg_sba (rf : RollupFields) {l1 l2 : List Field}
    (h : List.Forall₂ SameButAggregatable l1 l2) (a : Aggregation) :
    finalAgg rf l1 a = finalAgg rf l2 a := by
  unfold finalAgg
  rw [targetIds_sba rf h a]

lemma combine_sba (rf : RollupFields) (cat : List Aggregation)
    {l1 l2 : List Field} (h : List.Forall₂ SameButAggregatable l1 l2) :
    (combineFieldsAndAggs l1 cat rf).aggs = (combineFieldsAndAggs l2 cat rf).aggs ∧
    List.Forall₂ SameButAggregatable
      (combineFieldsAndAggs l1 cat rf).fields
      (combineFieldsAndAggs l2 cat rf).fields := by
  rw [combineFieldsAndAggs_eq, combineFieldsAndAggs_eq]
  constructor
  · show filterAggs (cat.map (finalAgg rf l1)) = filterAggs (cat.map (finalAgg rf l2))
    rw [List.map_congr_left (fun a _ => finalAgg_sba rf h a)]
  · exact forall₂_filter_of _ _ (fun f g hfg => by
        show (f.aggs.length != 0) = (g.aggs.length != 0)
        rw [hfg.2.2.2])
      (forall₂_map_of _ _ (fun f g hfg => finalField_sba hfg) h)

/-! ### Claims -/

/-- C3: for every invocation (rollup or not) and every capability report,
every field in the returned `fields` list has a non-empty aggregation list
and every aggregation in the returned `aggs` list has a non-empty field list
(mutual filtering). -/
theorem c3_mutual_filtering (lc : String → String → Int) (isRollup : Bool)
    (rollupJobs : Option (List RollupJob)) (fieldCaps : Option FieldCapsFields)
    (aggregations : List Aggregation) :
    (∀ f ∈ (getData lc isRollup rollupJobs fieldCaps aggregations).fields,
        f.aggs ≠ []) ∧
    (∀ a ∈ (getData lc isRollup rollupJobs fieldCaps aggregations).aggs,
        a.fields ≠ []) := by
  rcases getData_cases lc isRollup rollupJobs fieldCaps aggregations with h | ⟨rf, h⟩
  · rw [h]
    exact ⟨fun f hf => absurd hf (List.not_mem_nil f),
           fun a ha => absurd ha (List.not_mem_nil a)⟩
  · rw [h, combineFieldsAndAggs_eq]
    exact ⟨fun f hf => mem_filterFields hf, fun a ha => mem_filterAggs ha⟩

/-- Witness for C3, at the spec's worked scenario: the retained `age` field
has the non-empty aggregation list `["avg", "cardinality"]`. -/
theorem c3_mutual_filtering_witness :
    (Field.mk "age" "age" "long" true ["avg", "cardinality"]).aggs ≠ [] :=
  (c3_mutual_filtering lcLe false none (some scenarioReport) scenarioCatalog).1
    ⟨"age", "age", "long", true, ["avg", "cardinality"]⟩ (by decide)

/-- C4: in rollup mode, when the rollup service returns `null` (no matching
rollup jobs), `getData` returns exactly `{ fields: [], aggs: [] }` as a
normal (non-error) result.  The result is the same for every value of the
`fieldCaps` parameter, which is the pure rendering of "without fetching
field capabilities": the short-circuit happens before `createFields` would
consult the capability report. -/
theorem c4_rollup_null_empty_result (lc : String → String → Int)
    (fieldCaps : Option FieldCapsFields) (aggregations : List Aggregation) :
    getData lc true none fieldCaps aggregations = { aggs := [], fields := [] } :=
  rfl

/-- C9: a field name in the capability report yields a `Field` entity exactly
when the report lists at least one type variant for it whose first variant
has a supported type; the retained field copies the first variant's type and
aggregatable flag (and starts with no linked aggregations).  A field whose
first variant is missing or of unsupported type yields no entity at all —
`createFields` is total, so the drop is silent, not an error. -/
theorem c9_first_variant_supported (lc : String → String → Int)
    (report : FieldCapsFields) (f : Field) :
    f ∈ createFields lc (some report) ↔
      ∃ vs, (f.id, vs) ∈ report ∧ ∃ v, vs.head? = some v ∧
        supportedTypes.contains v.type = true ∧
        f = ⟨f.id, f.id, v.type, v.aggregatable, []⟩ := by
  rw [mem_createFields]
  constructor
  · rintro ⟨⟨k, vs⟩, hmem, he⟩
    rcases (fieldFromCaps_eq_some k vs f).1 he with ⟨v, hv, hs, hf⟩
    subst hf
    exact ⟨vs, hmem, v, hv, hs, rfl⟩
  · rintro ⟨vs, hmem, v, hv, hs, hf⟩
    exact ⟨(f.id, vs), hmem, (fieldFromCaps_eq_some f.id vs f).2 ⟨v, hv, hs, hf⟩⟩

/-- Witness for C9, at the spec's worked scenario: the `age` entry of the
report has first variant `long`/aggregatable, which is supported, so the
corresponding `Field` entity is created. -/
theorem c9_first_variant_supported_witness :
    (Field.mk "age" "age" "long" true []) ∈ createFields lcLe (some scenarioReport) :=
  (c9_first_variant_supported lcLe scenarioReport ⟨"age", "age", "long", true, []⟩).2
    ⟨[⟨"long", true⟩], by decide, ⟨"long", true⟩, rfl, by decide, rfl⟩

/-- C2 (code bug): evaluating `combineAllRollupFields` at two jobs that both
define field `a` — the first with aggregation `avg`, the second with `max` —
produces a merged entry holding only `avg`.  The claimed union behaviour
fails because the duplicate test at line 206 compares the result of
`Array.prototype.find` (the element or `undefined`) with `null` under strict
equality, which is never true, so the push of later jobs' entries is dead
code. -/
theorem c2_later_job_agg_dropped :
    combineAllRollupFields
        [⟨[("a", [⟨"avg"⟩])]⟩, ⟨[("a", [⟨"max"⟩])]⟩] = [("a", [⟨"avg"⟩])] := by
  decide

/-- C6: for every non-rollup invocation, every capability report and every
catalog (whose aggregations start unlinked, as the catalog template does),
the `count` aggregation is never present in any returned field's aggregation
list and never present in the returned aggregation list. -/
theorem c6_count_never_linked (lc : String → String → Int)
    (rollupJobs : Option (List RollupJob)) (fieldCaps : Option FieldCapsFields)
    (aggregations : List Aggregation)
    (hcat : ∀ a ∈ aggregations, a.fields = []) :
    (∀ f ∈ (getData lc false rollupJobs fieldCaps aggregations).fields,
        ES_AGG_COUNT ∉ f.aggs) ∧
    (∀ a ∈ (getData lc false rollupJobs fieldCaps aggregations).aggs,
        a.dslName ≠ ES_AGG_COUNT) := by
  rw [getData_not_rollup, combineFieldsAndAggs_eq]
  constructor
  · intro f hf hmem
    rcases mem_filterFields_map hf with ⟨f0, h0, rfl⟩
    have hagg0 : f0.aggs = [] := createFields_aggs lc fieldCaps f0 h0
    have hmem' : ES_AGG_COUNT ∈ ((aggregations.filter
        (fun a => fieldLinks f0 a && mixGate [] f0.id a.dslName)).map
          (fun a => a.dslName)) := by
      simpa [finalField, hagg0] using hmem
    rcases List.mem_map.1 hmem' with ⟨a, ha, hdsl⟩
    have hl := (List.mem_filter.1 ha).2
    rw [fieldLinks_count hdsl] at hl
    simp at hl
  · intro a ha hdsl
    rcases mem_filterAggs_map ha with ⟨a0, h0, rfl⟩
    have hfin : (finalAgg [] (createFields lc fieldCaps) a0).fields = [] := by
      simp [finalAgg, hcat a0 h0, targetIds,
        linkTargets_count (show a0.dslName = ES_AGG_COUNT from hdsl)]
    exact absurd hfin (mem_filterAggs ha)

/-- Witness for C6, at the spec's worked scenario: the retained `avg`
aggregation is not `count`. -/
theorem c6_count_never_linked_witness :
    (Aggregation.mk "avg" METRIC_AGG_TYPE ["age"]).dslName ≠ ES_AGG_COUNT :=
  (c6_count_never_linked lcLe none (some scenarioReport) scenarioCatalog
      (by decide)).2
    ⟨"avg", METRIC_AGG_TYPE, ["age"]⟩ (by decide)

/-- C7: for every non-rollup invocation (with an initially-unlinked catalog),
every output field of type `keyword` or `text` is linked to the
`cardinality` aggregation — provided the catalog lists `cardinality` as a
metric aggregation — and to nothing else, while every other retained metric
aggregation links only to fields of type `double`, `float` or `long` taken
from the created field list. -/
theorem c7_text_keyword_cardinality_only (lc : String → String → Int)
    (rollupJobs : Option (List RollupJob)) (fieldCaps : Option FieldCapsFields)
    (aggregations : List Aggregation)
    (hcat : ∀ a ∈ aggregations, a.fields = [])
    (hcard : ∃ a ∈ aggregations,
      a.dslName = ES_AGG_CARDINALITY ∧ a.type = METRIC_AGG_TYPE) :
    (∀ f ∈ (getData lc false rollupJobs fieldCaps aggregations).fields,
        f.type = "keyword" ∨ f.type = "text" →
        ES_AGG_CARDINALITY ∈ f.aggs ∧ ∀ n ∈ f.aggs, n = ES_AGG_CARDINALITY) ∧
    (∀ a ∈ (getData lc false rollupJobs fieldCaps aggregations).aggs,
        a.type = METRIC_AGG_TYPE → a.dslName ≠ ES_AGG_CARDINALITY →
        ∀ fid ∈ a.fields, ∃ f ∈ createFields lc fieldCaps,
          f.id = fid ∧ (f.type = "double" ∨ f.type = "float" ∨ f.type = "long")) := by
  rw [getData_not_rollup, combineFieldsAndAggs_eq]
  constructor
  · intro f hf htype
    rcases mem_filterFields_map hf with ⟨f0, h0, rfl⟩
    have hagg0 : f0.aggs = [] := createFields_aggs lc fieldCaps f0 h0
    have htype0 : f0.type = "keyword" ∨ f0.type = "text" := htype
    have haggs : (finalField [] aggregations f0).aggs =
        ((aggregations.filter
          (fun a => fieldLinks f0 a && mixGate [] f0.id a.dslName)).map
            (fun a => a.dslName)) := by
      simp [finalField, hagg0]
    constructor
    · rcases hcard with ⟨a, hamem, hdsl, htyp⟩
      rw [haggs]
      refine List.mem_map.2 ⟨a, List.mem_filter.2 ⟨hamem, ?_⟩, hdsl⟩
      rw [fieldLinks_text_keyword htype0, mixGate_nil]
      simp [htyp, hdsl, METRIC_AGG_TYPE, ES_AGG_CARDINALITY]
    · intro n hn
      rw [haggs] at hn
      rcases List.mem_map.1 hn with ⟨a, ha, rfl⟩
      have h2 := (List.mem_filter.1 ha).2
      rw [fieldLinks_text_keyword htype0] at h2
      have hc : (a.dslName == ES_AGG_CARDINALITY) = true := by
        simp only [Bool.and_eq_true] at h2
        exact h2.1.2
      exact eq_of_beq hc
  · intro a ha hm hcardne fid hfid
    rcases mem_filterAggs_map ha with ⟨a0, h0, rfl⟩
    have hfields : (finalAgg [] (createFields lc fieldCaps) a0).fields =
        targetIds [] (createFields lc fieldCaps) a0 := by
      simp [finalAgg, hcat a0 h0]
    rw [hfields] at hfid
    unfold targetIds at hfid
    rcases List.mem_map.1 hfid with ⟨f, hfmem, rfl⟩
    have hf1 := (List.mem_filter.1 hfmem).1
    have hm' : a0.type = METRIC_AGG_TYPE := hm
    have hcardne' : a0.dslName ≠ ES_AGG_CARDINALITY := hcardne
    by_cases hcount : a0.dslName = ES_AGG_COUNT
    · rw [linkTargets_count hcount] at hf1
      cases hf1
    · rw [linkTargets_other_metric hm' hcardne' hcount] at hf1
      unfold getNumericalFields at hf1
      have hfm := List.mem_filter.1 hf1
      refine ⟨f, hfm.1, rfl, ?_⟩
      have hp := hfm.2
      simp only [Bool.or_eq_true, beq_iff_eq] at hp
      tauto

/-- Witness for C7, at the spec's worked scenario: the keyword field `name`
is linked exactly to `cardinality`. -/
theorem c7_text_keyword_cardinality_only_witness :
    ES_AGG_CARDINALITY ∈ (Field.mk "name" "name" "keyword" true ["cardinality"]).aggs ∧
    ∀ n ∈ (Field.mk "name" "name" "keyword" true ["cardinality"]).aggs,
      n = ES_AGG_CARDINALITY :=
  (c7_text_keyword_cardinality_only lcLe none (some scenarioReport) scenarioCatalog
      (by decide)
      ⟨⟨"cardinality", METRIC_AGG_TYPE, []⟩, by decide, rfl, rfl⟩).1
    ⟨"name", "name", "keyword", true, ["cardinality"]⟩ (by decide) (Or.inl rfl)

/-- C1 counterexample: in rollup mode with the non-null job list
`[{fields: {}}]` the merged map is empty, and `mixFactory` then treats the
invocation as non-rollup (`Object.keys(rollupFields).length > 0` is false),
so the pair (`age`, `avg`) is linked even though the merged map permits
nothing — refuting the claim's "this holds … including when the merged map
is empty". -/
theorem c1_counterexample :
    (getData lcLe true (some [⟨[]⟩]) (some [("age", [⟨"long", true⟩])])
        [⟨"avg", METRIC_AGG_TYPE, []⟩]).fields =
      [⟨"age", "age", "long", true, ["avg"]⟩] ∧
    combineAllRollupFields [⟨[]⟩] = [] ∧
    rollupPermits (combineAllRollupFields [⟨[]⟩]) "age" "avg" = false := by
  decide

/-- C1 (amended): in rollup mode with a non-null job list, whenever the
merged rollup map is non-empty, a field/aggregation pair appears in the
returned fields' aggregation lists or the returned aggregations' field
lists only if the merged map contains that field name and lists that
aggregation's DSL name among its permitted aggregations; when the merged
map is empty, the gate is bypassed and linkage follows type-compatibility
rules instead. -/
theorem c1_rollup_gate (lc : String → String → Int)
    (fieldCaps : Option FieldCapsFields) (aggregations : List Aggregation)
    (configs : List RollupJob)
    (hcat : ∀ a ∈ aggregations, a.fields = [])
    (hne : combineAllRollupFields configs ≠ []) :
    (∀ f ∈ (getData lc true (some configs) fieldCaps aggregations).fields,
        ∀ n ∈ f.aggs,
          rollupPermits (combineAllRollupFields configs) f.id n = true) ∧
    (∀ a ∈ (getData lc true (some configs) fieldCaps aggregations).aggs,
        ∀ fid ∈ a.fields,
          rollupPermits (combineAllRollupFields configs) fid a.dslName = true) := by
  rw [getData_rollup_some, combineFieldsAndAggs_eq]
  constructor
  · intro f hf n hn
    rcases mem_filterFields_map hf with ⟨f0, h0, rfl⟩
    have hagg0 : f0.aggs = [] := createFields_aggs lc fieldCaps f0 h0
    have hn' : n ∈ ((aggregations.filter
        (fun a => fieldLinks f0 a &&
          mixGate (combineAllRollupFields configs) f0.id a.dslName)).map
            (fun a => a.dslName)) := by
      simpa [finalField, hagg0] using hn
    rcases List.mem_map.1 hn' with ⟨a, ha, rfl⟩
    have h2 := (List.mem_filter.1 ha).2
    simp only [Bool.and_eq_true] at h2
    have := h2.2
    rwa [mixGate_ne_nil hne] at this
  · intro a ha fid hfid
    rcases mem_filterAggs_map ha with ⟨a0, h0, rfl⟩
    have hfid' : fid ∈ targetIds (combineAllRollupFields configs)
        (createFields lc fieldCaps) a0 := by
      simpa [finalAgg, hcat a0 h0] using hfid
    unfold targetIds at hfid'
    rcases List.mem_map.1 hfid' with ⟨f, hfmem, rfl⟩
    have hg := (List.mem_filter.1 hfmem).2
    rwa [mixGate_ne_nil hne] at hg

/-- Witness for C1 (amended): one rollup job permitting only (`age`, `avg`);
the permitted pair is linked and the gate reports it as permitted. -/
theorem c1_rollup_gate_witness :
    rollupPermits (combineAllRollupFields [⟨[("age", [⟨"avg"⟩])]⟩]) "age" "avg" = true :=
  (c1_rollup_gate lcLe (some scenarioReport) scenarioCatalog
      [⟨[("age", [⟨"avg"⟩])]⟩] (by decide) (by decide)).1
    ⟨"age", "age", "long", true, ["avg"]⟩ (by decide) "avg" (by decide)

/-- C8: for every invocation and every capability report, the returned field
list is pairwise ascending by field identifier under the locale comparator
(for every consistent — transitive and total — comparator standing in for
`localeCompare`; the subsequent linking pass preserves ids and the final
filter preserves relative order). -/
theorem c8_fields_sorted (lc : String → String → Int) (isRollup : Bool)
    (rollupJobs : Option (List RollupJob)) (fieldCaps : Option FieldCapsFields)
    (aggregations : List Aggregation)
    (htrans : ∀ a b c : String, lc a b ≤ 0 → lc b c ≤ 0 → lc a c ≤ 0)
    (htotal : ∀ a b : String, lc a b ≤ 0 ∨ lc b a ≤ 0) :
    (getData lc isRollup rollupJobs fieldCaps aggregations).fields.Pairwise
      (fun f g => lc f.id g.id ≤ 0) := by
  rcases getData_cases lc isRollup rollupJobs fieldCaps aggregations with h | ⟨rf, h⟩
  · rw [h]
    exact List.Pairwise.nil
  · rw [h, combineFieldsAndAggs_eq]
    have hs := createFields_sorted lc fieldCaps htrans htotal
    have hmap : (List.map (finalField rf aggregations)
        (createFields lc fieldCaps)).Pairwise (fun f g => lc f.id g.id ≤ 0) := by
      rw [List.pairwise_map]
      exact hs.imp (fun {a b} hab => hab)
    exact hmap.filter _

/-- Witness for C8, at the spec's worked scenario with the concrete
code-point comparator. -/
theorem c8_fields_sorted_witness :
    (getData lcLe false none (some scenarioReport) scenarioCatalog).fields.Pairwise
      (fun f g => lcLe f.id g.id ≤ 0) :=
  c8_fields_sorted lcLe false none (some scenarioReport) scenarioCatalog
    lcLe_trans lcLe_total

/-- C10: for any two capability reports of the same shape (same field names
and the same type variants in the same order, differing only in
aggregatable flags), the two invocations return identical aggregation lists
and field lists that agree on identifiers, names, types and links,
differing at most in the copied aggregatable values; in particular (second
conjunct) a field reported with `aggregatable: false` but type `double` is
still linked to the numeric metric aggregation and retained. -/
theorem c10_aggregatable_noninterference (lc : String → String → Int)
    (isRollup : Bool) (rollupJobs : Option (List RollupJob))
    (aggregations : List Aggregation) (r1 r2 : FieldCapsFields)
    (hshape : List.Forall₂ SameShapeEntry r1 r2) :
    ((getData lc isRollup rollupJobs (some r1) aggregations).aggs =
        (getData lc isRollup rollupJobs (some r2) aggregations).aggs ∧
      List.Forall₂ SameButAggregatable
        (getData lc isRollup rollupJobs (some r1) aggregations).fields
        (getData lc isRollup rollupJobs (some r2) aggregations).fields) ∧
    (getData lcLe false none (some [("x", [⟨"double", false⟩])])
        [⟨"avg", METRIC_AGG_TYPE, []⟩]).fields =
      [⟨"x", "x", "double", false, ["avg"]⟩] := by
  refine ⟨?_, by decide⟩
  cases isRollup with
  | false =>
      rw [getData_not_rollup, getData_not_rollup]
      exact combine_sba [] aggregations (forall₂_createFields lc hshape)
  | true =>
      cases rollupJobs with
      | none => exact ⟨rfl, List.Forall₂.nil⟩
      | some configs =>
          rw [getData_rollup_some, getData_rollup_some]
          exact combine_sba (combineAllRollupFields configs) aggregations
            (forall₂_createFields lc hshape)

/-- Witness for C10: two one-field reports differing only in the
aggregatable flag of `x` produce the same retained aggregations. -/
theorem c10_aggregatable_noninterference_witness :
    (getData lcLe false none (some [("x", [⟨"double", true⟩])])
        [⟨"avg", METRIC_AGG_TYPE, []⟩]).aggs =
      (getData lcLe false none (some [("x", [⟨"double", false⟩])])
        [⟨"avg", METRIC_AGG_TYPE, []⟩]).aggs :=
  ((c10_aggregatable_noninterference lcLe false none
      [⟨"avg", METRIC_AGG_TYPE, []⟩]
      [("x", [⟨"double", true⟩])] [("x", [⟨"double", false⟩])]
      (List.Forall₂.cons ⟨rfl, List.Forall₂.cons rfl List.Forall₂.nil⟩
        List.Forall₂.nil)).1).1

/-- C5 counterexample: at the spec's worked scenario the output is not the
claimed structure — the claim lists `cardinality(fields: [age, name])`, but
the code mixes text/keyword fields before numerical ones, so `cardinality`'s
field list is `[name, age]`. -/
theorem c5_scenario_counterexample :
    getData lcLe false none (some scenarioReport) scenarioCatalog ≠
      ⟨[⟨"avg", METRIC_AGG_TYPE, ["age"]⟩,
        ⟨"cardinality", METRIC_AGG_TYPE, ["age", "name"]⟩],
       [⟨"age", "age", "long", true, ["avg", "cardinality"]⟩,
        ⟨"name", "name", "keyword", true, ["cardinality"]⟩]⟩ := by
  decide

/-- C5 (amended): at the spec's worked scenario the result is fields
`[age(aggs: [avg, cardinality]), name(aggs: [cardinality])]` and aggs
`[avg(fields: [age]), cardinality(fields: [name, age])]`, with `count`
absent; `cardinality`'s field list holds the text/keyword field before the
numerical one, in mixing order. -/
theorem c5_scenario_amended :
    getData lcLe false none (some scenarioReport) scenarioCatalog =
      ⟨[⟨"avg", METRIC_AGG_TYPE, ["age"]⟩,
        ⟨"cardinality", METRIC_AGG_TYPE, ["name", "age"]⟩],
       [⟨"age", "age", "long", true, ["avg", "cardinality"]⟩,
        ⟨"name", "name", "keyword", true, ["cardinality"]⟩]⟩ := by
  decide

end FieldService
